import Mathlib

/-!
Shallow embedding of the elevator simulation repository
(src/elevator.py and src/simulation.py, Python 2).

Floors are modelled as integers (`Int`), since Python integers are
unbounded and the elevator's `current_floor` is incremented and
decremented without clamping.  The Python `Actions` dictionary maps
the action names to their floor deltas: up = 1, down = -1, open = 0;
we represent an action directly by its delta, as the code itself
returns and adds the delta.

Randomness (the `random` module) is modelled by explicit oracles:
every random draw of the Python code becomes an explicit argument,
so each theorem quantifies over (or fixes) the drawn values.
-/

namespace ElevatorSim

/-- State of `Elevator` (src/elevator.py): `next_floors` is the deque of
pending requests in insertion order, `already_activated` the companion
`Set` of queued floors, `nfloors` the floor count and `current_floor`
the car's position. -/
structure Elevator where
  next_floors : List Int
  already_activated : Finset Int
  nfloors : Nat
  current_floor : Int
  deriving DecidableEq

/-- `Elevator.__init__(nfloors)`: empty deque, empty set, car at floor 1. -/
def Elevator.init (nfloors : Nat) : Elevator :=
  { next_floors := []
    already_activated := ∅
    nfloors := nfloors
    current_floor := 1 }

/-- One iteration of the `for floor in requests` loop of
`Elevator.new_requests`: append `floor` to the deque and mark it
activated, unless it is already activated. -/
def Elevator.reqStep (s : Elevator) (floor : Int) : Elevator :=
  if floor ∈ s.already_activated then s
  else
    { s with
      next_floors := s.next_floors ++ [floor]
      already_activated := insert floor s.already_activated }

/-- `Elevator.new_requests(requests)`: process the request list in order. -/
def Elevator.new_requests (s : Elevator) (requests : List Int) : Elevator :=
  requests.foldl Elevator.reqStep s

/-- `Elevator.action()`: decide the move, mutate the state, and return the
new state together with the move (1 = up, -1 = down, 0 = open doors).
`self.nfloors / 2` is Python 2 integer division on ints, hence `Nat`
division here.  `self.current_floor += move` is applied in every branch,
exactly as in the source. -/
def Elevator.action (s : Elevator) : Elevator × Int :=
  if s.next_floors.length = 0 then
    let move : Int := if s.current_floor < ((s.nfloors / 2 : Nat) : Int) then 1 else -1
    ({ s with current_floor := s.current_floor + move }, move)
  else if s.current_floor ∈ s.next_floors then
    ({ s with
        next_floors := s.next_floors.erase s.current_floor
        already_activated := s.already_activated.erase s.current_floor
        current_floor := s.current_floor + 0 }, 0)
  else
    let move : Int := if s.current_floor < s.next_floors.headI then 1 else -1
    ({ s with current_floor := s.current_floor + move }, move)

/-- C1: with a non-empty queue, `action` opens the doors (move 0) when the
current floor is queued, removing it from the deque and the activated set
and leaving the current floor unchanged — this membership check takes
priority over navigating toward the head; otherwise it moves exactly one
floor toward the queue's head (its first, i.e. oldest, entry): up if the
current floor is below the head, else down. -/
theorem c1_action_nonempty_queue (s : Elevator) (h : s.next_floors ≠ []) :
    (s.current_floor ∈ s.next_floors →
      s.action =
        ({ s with
            next_floors := s.next_floors.erase s.current_floor
            already_activated := s.already_activated.erase s.current_floor }, 0)) ∧
    (s.current_floor ∉ s.next_floors →
      s.action =
        if s.current_floor < s.next_floors.headI then
          ({ s with current_floor := s.current_floor + 1 }, 1)
        else
          ({ s with current_floor := s.current_floor + (-1) }, -1)) := by
  have hlen : ¬ s.next_floors.length = 0 := by
    simpa [List.length_eq_zero] using h
  constructor
  · intro hmem
    simp [Elevator.action, hlen, hmem]
  · intro hmem
    by_cases hlt : s.current_floor < s.next_floors.headI <;>
      simp [Elevator.action, hlen, hmem, hlt]

/-- Witness for C1 at a concrete state: queue [1] with the car at floor 1
(a membership hit), so the doors open and floor 1 is dequeued. -/
theorem c1_action_nonempty_queue_witness :
    (Elevator.mk [1] {1} 5 1).next_floors ≠ [] ∧
      (((Elevator.mk [1] {1} 5 1).current_floor ∈ (Elevator.mk [1] {1} 5 1).next_floors →
        (Elevator.mk [1] {1} 5 1).action =
          ({ Elevator.mk [1] {1} 5 1 with
              next_floors := (Elevator.mk [1] {1} 5 1).next_floors.erase 1
              already_activated := (Elevator.mk [1] {1} 5 1).already_activated.erase 1 }, 0)) ∧
      ((Elevator.mk [1] {1} 5 1).current_floor ∉ (Elevator.mk [1] {1} 5 1).next_floors →
        (Elevator.mk [1] {1} 5 1).action =
          if (Elevator.mk [1] {1} 5 1).current_floor < (Elevator.mk [1] {1} 5 1).next_floors.headI then
            ({ Elevator.mk [1] {1} 5 1 with current_floor := 1 + 1 }, 1)
          else
            ({ Elevator.mk [1] {1} 5 1 with current_floor := 1 + (-1) }, -1))) :=
  ⟨by decide, c1_action_nonempty_queue (Elevator.mk [1] {1} 5 1) (by decide)⟩

/-- C2: with an empty queue, `action` moves up when the current floor is
strictly below `nfloors / 2` (integer division) and down otherwise — in
particular down exactly at the midpoint — adding the move to the current
floor and leaving the queue and the activated set unchanged. -/
theorem c2_action_empty_queue (s : Elevator) (h : s.next_floors = []) :
    (s.action =
      if s.current_floor < ((s.nfloors / 2 : Nat) : Int) then
        ({ s with current_floor := s.current_floor + 1 }, 1)
      else
        ({ s with current_floor := s.current_floor + (-1) }, -1)) ∧
    (s.current_floor = ((s.nfloors / 2 : Nat) : Int) → (s.action).2 = -1) := by
  have hlen : s.next_floors.length = 0 := by simp [h]
  have hcast : ((s.nfloors / 2 : Nat) : Int) = (s.nfloors : Int) / 2 := by
    simp
  constructor
  · rw [hcast]
    by_cases hlt : s.current_floor < (s.nfloors : Int) / 2 <;>
      simp [Elevator.action, hlen, hlt, hcast]
  · intro hmid
    rw [hcast] at hmid
    simp [Elevator.action, hlen, hcast, hmid]

/-- Witness for C2 at a concrete state: empty queue, 5 floors, car at the
midpoint floor 2 = 5 / 2, so the car moves down. -/
theorem c2_action_empty_queue_witness :
    (Elevator.mk [] ∅ 5 2).next_floors = [] ∧
      (((Elevator.mk [] ∅ 5 2).action =
        if (Elevator.mk [] ∅ 5 2).current_floor < (((Elevator.mk [] ∅ 5 2).nfloors / 2 : Nat) : Int) then
          ({ Elevator.mk [] ∅ 5 2 with current_floor := 2 + 1 }, 1)
        else
          ({ Elevator.mk [] ∅ 5 2 with current_floor := 2 + (-1) }, -1)) ∧
      ((Elevator.mk [] ∅ 5 2).current_floor = (((Elevator.mk [] ∅ 5 2).nfloors / 2 : Nat) : Int) →
        ((Elevator.mk [] ∅ 5 2).action).2 = -1)) :=
  ⟨by decide, c2_action_empty_queue (Elevator.mk [] ∅ 5 2) (by decide)⟩

theorem Elevator.new_requests_cons (s : Elevator) (a : Int) (t : List Int) :
    s.new_requests (a :: t) = (s.reqStep a).new_requests t := rfl

theorem Elevator.reqStep_nfloors (s : Elevator) (a : Int) :
    (s.reqStep a).nfloors = s.nfloors := by
  unfold Elevator.reqStep; split <;> rfl

theorem Elevator.reqStep_current_floor (s : Elevator) (a : Int) :
    (s.reqStep a).current_floor = s.current_floor := by
  unfold Elevator.reqStep; split <;> rfl

theorem Elevator.new_requests_nfloors (s : Elevator) (r : List Int) :
    (s.new_requests r).nfloors = s.nfloors := by
  induction r generalizing s with
  | nil => rfl
  | cons a t ih => rw [Elevator.new_requests_cons, ih, Elevator.reqStep_nfloors]

theorem Elevator.new_requests_current_floor (s : Elevator) (r : List Int) :
    (s.new_requests r).current_floor = s.current_floor := by
  induction r generalizing s with
  | nil => rfl
  | cons a t ih => rw [Elevator.new_requests_cons, ih, Elevator.reqStep_current_floor]

theorem Elevator.reqStep_activated_mono (s : Elevator) (a x : Int)
    (hx : x ∈ s.already_activated) : x ∈ (s.reqStep a).already_activated := by
  unfold Elevator.reqStep
  split
  · exact hx
  · exact Finset.mem_insert_of_mem hx

theorem Elevator.new_requests_activated_mono (s : Elevator) (r : List Int) (x : Int)
    (hx : x ∈ s.already_activated) : x ∈ (s.new_requests r).already_activated := by
  induction r generalizing s with
  | nil => exact hx
  | cons a t ih =>
    rw [Elevator.new_requests_cons]
    exact ih _ (Elevator.reqStep_activated_mono s a x hx)

theorem Elevator.mem_activated_new_requests (s : Elevator) (r : List Int) (x : Int)
    (hx : x ∈ r) : x ∈ (s.new_requests r).already_activated := by
  induction r generalizing s with
  | nil => cases hx
  | cons a t ih =>
    rw [Elevator.new_requests_cons]
    rcases List.mem_cons.mp hx with rfl | hmem
    · refine Elevator.new_requests_activated_mono _ _ _ ?_
      unfold Elevator.reqStep
      split
      · assumption
      · exact Finset.mem_insert_self _ _
    · exact ih _ hmem

theorem Elevator.new_requests_eq_self (s : Elevator) (r : List Int)
    (h : ∀ f ∈ r, f ∈ s.already_activated) : s.new_requests r = s := by
  induction r with
  | nil => rfl
  | cons a t ih =>
    rw [Elevator.new_requests_cons]
    have hstep : s.reqStep a = s := by
      unfold Elevator.reqStep
      rw [if_pos (h a (List.mem_cons_self a t))]
    rw [hstep]
    exact ih (fun f hf => h f (List.mem_cons_of_mem a hf))

/-- C7: registering the same request list twice leaves the elevator in
exactly the state produced by registering it once — already-queued floors
are skipped, so no duplicate insertion and no reordering occurs. -/
theorem c7_new_requests_idempotent (s : Elevator) (r : List Int) :
    (s.new_requests r).new_requests r = s.new_requests r :=
  Elevator.new_requests_eq_self _ _
    (fun f hf => Elevator.mem_activated_new_requests s r f hf)

/-- Invariant of the request queue: no duplicate entries, and the deque's
members coincide with the `already_activated` set. -/
def Elevator.QueueInv (s : Elevator) : Prop :=
  s.next_floors.Nodup ∧ ∀ x : Int, x ∈ s.next_floors ↔ x ∈ s.already_activated

theorem Elevator.queueInv_reqStep (s : Elevator) (a : Int)
    (h : s.QueueInv) : (s.reqStep a).QueueInv := by
  obtain ⟨hnd, hiff⟩ := h
  unfold Elevator.reqStep
  split
  · exact ⟨hnd, hiff⟩
  · rename_i hact
    refine ⟨?_, ?_⟩
    · have hnq : a ∉ s.next_floors := fun hq => hact ((hiff a).mp hq)
      simp [List.nodup_append, hnd, hnq]
    · intro x
      simp only [List.mem_append, List.mem_singleton, Finset.mem_insert, hiff x]
      tauto

theorem Elevator.new_requests_queue_append (s : Elevator) (r : List Int) :
    ∃ t, (s.new_requests r).next_floors = s.next_floors ++ t := by
  induction r generalizing s with
  | nil => exact ⟨[], (List.append_nil _).symm⟩
  | cons a t ih =>
    rw [Elevator.new_requests_cons]
    obtain ⟨u, hu⟩ := ih (s.reqStep a)
    by_cases hmem : a ∈ s.already_activated
    · have hq : (s.reqStep a).next_floors = s.next_floors := by
        unfold Elevator.reqStep; rw [if_pos hmem]
      exact ⟨u, by rw [hu, hq]⟩
    · have hq : (s.reqStep a).next_floors = s.next_floors ++ [a] := by
        unfold Elevator.reqStep; rw [if_neg hmem]
      exact ⟨[a] ++ u, by rw [hu, hq, List.append_assoc]⟩

theorem Elevator.queueInv_new_requests (s : Elevator) (r : List Int)
    (h : s.QueueInv) : (s.new_requests r).QueueInv := by
  induction r generalizing s with
  | nil => exact h
  | cons a t ih =>
    rw [Elevator.new_requests_cons]
    exact ih _ (Elevator.queueInv_reqStep s a h)

theorem Elevator.queueInv_action (s : Elevator)
    (h : s.QueueInv) : (s.action).1.QueueInv := by
  obtain ⟨hnd, hiff⟩ := h
  by_cases hemp : s.next_floors.length = 0
  · have h1 : (s.action).1.next_floors = s.next_floors := by
      simp [Elevator.action, hemp]
    have h2 : (s.action).1.already_activated = s.already_activated := by
      simp [Elevator.action, hemp]
    rw [Elevator.QueueInv, h1, h2]
    exact ⟨hnd, hiff⟩
  · by_cases hmem : s.current_floor ∈ s.next_floors
    · have h1 : (s.action).1.next_floors = s.next_floors.erase s.current_floor := by
        simp [Elevator.action, hemp, hmem]
      have h2 : (s.action).1.already_activated = s.already_activated.erase s.current_floor := by
        simp [Elevator.action, hemp, hmem]
      rw [Elevator.QueueInv, h1, h2]
      refine ⟨hnd.erase _, fun x => ?_⟩
      constructor
      · intro hx
        rcases (List.Nodup.mem_erase_iff hnd).mp hx with ⟨hne2, hx2⟩
        exact Finset.mem_erase.mpr ⟨hne2, (hiff x).mp hx2⟩
      · intro hx
        rcases Finset.mem_erase.mp hx with ⟨hne2, hx2⟩
        exact (List.Nodup.mem_erase_iff hnd).mpr ⟨hne2, (hiff x).mpr hx2⟩
    · have h1 : (s.action).1.next_floors = s.next_floors := by
        simp [Elevator.action, hemp, hmem]
      have h2 : (s.action).1.already_activated = s.already_activated := by
        simp [Elevator.action, hemp, hmem]
      rw [Elevator.QueueInv, h1, h2]
      exact ⟨hnd, hiff⟩

/-- Reachable elevator states: the initial state for any floor count,
closed under `new_requests` with arbitrary request lists and under
`action`. -/
inductive ReachAny : Elevator → Prop where
| init : ∀ n : Nat, ReachAny (Elevator.init n)
| req : ∀ (s : Elevator) (r : List Int), ReachAny s → ReachAny (s.new_requests r)
| act : ∀ s : Elevator, ReachAny s → ReachAny (s.action).1

theorem Elevator.queueInv_of_reachAny (s : Elevator) (h : ReachAny s) :
    s.QueueInv := by
  induction h with
  | init n => exact ⟨List.nodup_nil, by simp [Elevator.init]⟩
  | req s r _ ih => exact Elevator.queueInv_new_requests s r ih
  | act s _ ih => exact Elevator.queueInv_action s ih

/-- C6: in every reachable elevator state the request queue has no
duplicate entries and its members coincide with the activated-floor set;
`new_requests` only appends to the queue (never removes), and `action`
removes the current floor from the queue exactly when it opens the doors
(move 0) there; otherwise the queue is untouched and the move is ±1. -/
theorem c6_queue_invariant (s : Elevator) (h : ReachAny s) :
    s.next_floors.Nodup ∧
    (∀ x : Int, x ∈ s.next_floors ↔ x ∈ s.already_activated) ∧
    (∀ r : List Int, ∃ t, (s.new_requests r).next_floors = s.next_floors ++ t) ∧
    (if s.next_floors ≠ [] ∧ s.current_floor ∈ s.next_floors then
      (s.action).2 = 0 ∧ (s.action).1.next_floors = s.next_floors.erase s.current_floor
    else
      (s.action).2 ≠ 0 ∧ (s.action).1.next_floors = s.next_floors) := by
  obtain ⟨hnd, hiff⟩ := Elevator.queueInv_of_reachAny s h
  refine ⟨hnd, hiff, fun r => Elevator.new_requests_queue_append s r, ?_⟩
  by_cases hne : s.next_floors ≠ [] ∧ s.current_floor ∈ s.next_floors
  · rw [if_pos hne]
    have hlen : ¬ s.next_floors.length = 0 := by
      simpa [List.length_eq_zero] using hne.1
    simp [Elevator.action, hlen, hne.2]
  · rw [if_neg hne]
    by_cases hemp : s.next_floors.length = 0
    · constructor
      · unfold Elevator.action
        rw [if_pos hemp]
        show (if s.current_floor < ((s.nfloors / 2 : Nat) : Int) then (1 : Int) else -1) ≠ 0
        split <;> decide
      · simp [Elevator.action, hemp]
    · have hne' : s.next_floors ≠ [] := fun hnil => hemp (by simp [hnil])
      have hmem : s.current_floor ∉ s.next_floors := fun hc => hne ⟨hne', hc⟩
      constructor
      · unfold Elevator.action
        rw [if_neg hemp, if_neg hmem]
        show (if s.current_floor < s.next_floors.headI then (1 : Int) else -1) ≠ 0
        split <;> decide
      · simp [Elevator.action, hemp, hmem]

/-- Witness for C6 at the initial 5-floor elevator, reachable by
construction. -/
theorem c6_queue_invariant_witness :
    ReachAny (Elevator.init 5) ∧
      ((Elevator.init 5).next_floors.Nodup ∧
      (∀ x : Int, x ∈ (Elevator.init 5).next_floors ↔ x ∈ (Elevator.init 5).already_activated) ∧
      (∀ r : List Int, ∃ t,
        ((Elevator.init 5).new_requests r).next_floors = (Elevator.init 5).next_floors ++ t) ∧
      (if (Elevator.init 5).next_floors ≠ [] ∧
          (Elevator.init 5).current_floor ∈ (Elevator.init 5).next_floors then
        ((Elevator.init 5).action).2 = 0 ∧
          ((Elevator.init 5).action).1.next_floors =
            (Elevator.init 5).next_floors.erase (Elevator.init 5).current_floor
      else
        ((Elevator.init 5).action).2 ≠ 0 ∧
          ((Elevator.init 5).action).1.next_floors = (Elevator.init 5).next_floors)) :=
  ⟨ReachAny.init 5, c6_queue_invariant (Elevator.init 5) (ReachAny.init 5)⟩

theorem Elevator.headI_mem (l : List Int) (h : l ≠ []) : l.headI ∈ l := by
  cases l with
  | nil => exact absurd rfl h
  | cons a t => exact List.mem_cons_self a t

theorem Elevator.action_empty_up (s : Elevator) (hemp : s.next_floors.length = 0)
    (hlt : s.current_floor < ((s.nfloors / 2 : Nat) : Int)) :
    s.action = ({ s with current_floor := s.current_floor + 1 }, 1) := by
  unfold Elevator.action
  rw [if_pos hemp]
  show ({ s with current_floor := s.current_floor +
      (if s.current_floor < ((s.nfloors / 2 : Nat) : Int) then (1 : Int) else -1) },
    (if s.current_floor < ((s.nfloors / 2 : Nat) : Int) then (1 : Int) else -1)) = _
  rw [if_pos hlt]

theorem Elevator.action_empty_down (s : Elevator) (hemp : s.next_floors.length = 0)
    (hlt : ¬ s.current_floor < ((s.nfloors / 2 : Nat) : Int)) :
    s.action = ({ s with current_floor := s.current_floor + (-1) }, -1) := by
  unfold Elevator.action
  rw [if_pos hemp]
  show ({ s with current_floor := s.current_floor +
      (if s.current_floor < ((s.nfloors / 2 : Nat) : Int) then (1 : Int) else -1) },
    (if s.current_floor < ((s.nfloors / 2 : Nat) : Int) then (1 : Int) else -1)) = _
  rw [if_neg hlt]

theorem Elevator.action_open (s : Elevator) (hemp : ¬ s.next_floors.length = 0)
    (hmem : s.current_floor ∈ s.next_floors) :
    s.action = ({ s with
        next_floors := s.next_floors.erase s.current_floor
        already_activated := s.already_activated.erase s.current_floor
        current_floor := s.current_floor + 0 }, 0) := by
  unfold Elevator.action
  rw [if_neg hemp, if_pos hmem]

theorem Elevator.action_toward_up (s : Elevator) (hemp : ¬ s.next_floors.length = 0)
    (hmem : s.current_floor ∉ s.next_floors)
    (hlt : s.current_floor < s.next_floors.headI) :
    s.action = ({ s with current_floor := s.current_floor + 1 }, 1) := by
  unfold Elevator.action
  rw [if_neg hemp, if_neg hmem]
  show ({ s with current_floor := s.current_floor +
      (if s.current_floor < s.next_floors.headI then (1 : Int) else -1) },
    (if s.current_floor < s.next_floors.headI then (1 : Int) else -1)) = _
  rw [if_pos hlt]

theorem Elevator.action_toward_down (s : Elevator) (hemp : ¬ s.next_floors.length = 0)
    (hmem : s.current_floor ∉ s.next_floors)
    (hlt : ¬ s.current_floor < s.next_floors.headI) :
    s.action = ({ s with current_floor := s.current_floor + (-1) }, -1) := by
  unfold Elevator.action
  rw [if_neg hemp, if_neg hmem]
  show ({ s with current_floor := s.current_floor +
      (if s.current_floor < s.next_floors.headI then (1 : Int) else -1) },
    (if s.current_floor < s.next_floors.headI then (1 : Int) else -1)) = _
  rw [if_neg hlt]

theorem Elevator.mem_queue_new_requests (s : Elevator) (r : List Int) (x : Int)
    (hx : x ∈ (s.new_requests r).next_floors) : x ∈ s.next_floors ∨ x ∈ r := by
  induction r generalizing s with
  | nil => exact Or.inl hx
  | cons a t ih =>
    rw [Elevator.new_requests_cons] at hx
    rcases ih (s.reqStep a) hx with hx1 | hx1
    · unfold Elevator.reqStep at hx1
      by_cases hmem : a ∈ s.already_activated
      · rw [if_pos hmem] at hx1
        exact Or.inl hx1
      · rw [if_neg hmem] at hx1
        rcases List.mem_append.mp hx1 with hx2 | hx2
        · exact Or.inl hx2
        · exact Or.inr (by simpa using Or.inl (List.mem_singleton.mp hx2))
    · exact Or.inr (List.mem_cons_of_mem a hx1)

/-- Invariant tying the elevator to an `n`-floor building: the stored floor
count is `n`, the car is inside `[0, n)` and every queued floor is inside
`[0, n)`. -/
def Elevator.FloorInv (n : Nat) (s : Elevator) : Prop :=
  s.nfloors = n ∧ 0 ≤ s.current_floor ∧ s.current_floor < (n : Int) ∧
    ∀ f ∈ s.next_floors, 0 ≤ f ∧ f < (n : Int)

theorem Elevator.floorInv_new_requests (n : Nat) (s : Elevator) (r : List Int)
    (hr : ∀ f ∈ r, 0 ≤ f ∧ f < (n : Int)) (h : s.FloorInv n) :
    (s.new_requests r).FloorInv n := by
  obtain ⟨hn, h0, h1, hq⟩ := h
  refine ⟨by rw [Elevator.new_requests_nfloors, hn],
    by rw [Elevator.new_requests_current_floor]; exact h0,
    by rw [Elevator.new_requests_current_floor]; exact h1, ?_⟩
  intro f hf
  rcases Elevator.mem_queue_new_requests s r f hf with hf1 | hf1
  · exact hq f hf1
  · exact hr f hf1

theorem Elevator.floorInv_action (n : Nat) (s : Elevator) (hn2 : 2 ≤ n)
    (h : s.FloorInv n) : (s.action).1.FloorInv n := by
  obtain ⟨hn, h0, h1, hq⟩ := h
  by_cases hemp : s.next_floors.length = 0
  · by_cases hlt : s.current_floor < ((s.nfloors / 2 : Nat) : Int)
    · rw [Elevator.action_empty_up s hemp hlt]
      rw [hn] at hlt
      refine ⟨hn, ?_, ?_, hq⟩
      · show 0 ≤ s.current_floor + 1
        omega
      · show s.current_floor + 1 < (n : Int)
        omega
    · rw [Elevator.action_empty_down s hemp hlt]
      rw [hn] at hlt
      refine ⟨hn, ?_, ?_, hq⟩
      · show 0 ≤ s.current_floor + (-1)
        omega
      · show s.current_floor + (-1) < (n : Int)
        omega
  · by_cases hmem : s.current_floor ∈ s.next_floors
    · rw [Elevator.action_open s hemp hmem]
      refine ⟨hn, ?_, ?_, fun f hf => hq f (List.mem_of_mem_erase hf)⟩
      · show 0 ≤ s.current_floor + 0
        omega
      · show s.current_floor + 0 < (n : Int)
        omega
    · have hne : s.next_floors ≠ [] := fun hnil => hemp (by simp [hnil])
      have hhead := hq _ (Elevator.headI_mem s.next_floors hne)
      have hhne : s.next_floors.headI ≠ s.current_floor := fun hh =>
        hmem (hh ▸ Elevator.headI_mem s.next_floors hne)
      by_cases hlt : s.current_floor < s.next_floors.headI
      · rw [Elevator.action_toward_up s hemp hmem hlt]
        refine ⟨hn, ?_, ?_, hq⟩
        · show 0 ≤ s.current_floor + 1
          omega
        · show s.current_floor + 1 < (n : Int)
          omega
      · rw [Elevator.action_toward_down s hemp hmem hlt]
        refine ⟨hn, ?_, ?_, hq⟩
        · show 0 ≤ s.current_floor + (-1)
          omega
        · show s.current_floor + (-1) < (n : Int)
          omega

/-- Reachable elevator states of an `n`-floor building: the initial state,
closed under `new_requests` with request lists of in-range floors (as the
simulation only ever produces floors in `[0, n)`) and under `action`. -/
inductive ReachValid (n : Nat) : Elevator → Prop where
| init : ReachValid n (Elevator.init n)
| req : ∀ (s : Elevator) (r : List Int), ReachValid n s →
    (∀ f ∈ r, 0 ≤ f ∧ f < (n : Int)) → ReachValid n (s.new_requests r)
| act : ∀ s : Elevator, ReachValid n s → ReachValid n (s.action).1

theorem Elevator.floorInv_of_reachValid (n : Nat) (s : Elevator) (hn2 : 2 ≤ n)
    (h : ReachValid n s) : s.FloorInv n := by
  induction h with
  | init =>
    refine ⟨rfl, ?_, ?_, ?_⟩
    · show (0 : Int) ≤ 1
      decide
    · show (1 : Int) < (n : Int)
      omega
    · intro f hf
      cases hf
  | req s r _ hr ih => exact Elevator.floorInv_new_requests n s r hr ih
  | act s _ ih => exact Elevator.floorInv_action n s hn2 ih

/-- C8: for a valid floor count (`nfloors ≥ 2`), the elevator's current
floor stays in `[0, nfloors)` in every state reachable from the initial
state by any sequence of in-range request registrations and actions. -/
theorem c8_current_floor_bounds (n : Nat) (s : Elevator) (hn2 : 2 ≤ n)
    (h : ReachValid n s) : 0 ≤ s.current_floor ∧ s.current_floor < (n : Int) :=
  ⟨(Elevator.floorInv_of_reachValid n s hn2 h).2.1,
    (Elevator.floorInv_of_reachValid n s hn2 h).2.2.1⟩

/-- Witness for C8 at the boundary configuration `nfloors = 2`, at the
initial state. -/
theorem c8_current_floor_bounds_witness :
    (2 ≤ 2 ∧ ReachValid 2 (Elevator.init 2)) ∧
      (0 ≤ (Elevator.init 2).current_floor ∧
        (Elevator.init 2).current_floor < ((2 : Nat) : Int)) :=
  ⟨⟨le_refl 2, ReachValid.init⟩,
    c8_current_floor_bounds 2 (Elevator.init 2) (le_refl 2) ReachValid.init⟩

/-- State of `Person` (src/simulation.py): the two wait counters and the
desired floor.  `Person.__init__` chooses `desired_floor` by the rejection
loop modelled by `personDesiredFloor` below. -/
structure Person where
  floor_wait_time : Nat
  elevator_wait_time : Nat
  desired_floor : Int
  deriving DecidableEq

/-- `Person.wait(in_elevator)`: increment exactly one wait counter. -/
def Person.wait (in_elevator : Bool) (p : Person) : Person :=
  if in_elevator then { p with elevator_wait_time := p.elevator_wait_time + 1 }
  else { p with floor_wait_time := p.floor_wait_time + 1 }

/-- A freshly generated person: both counters start at 0
(`Person.__init__`), with the desired floor produced by the sampling
loop. -/
def Person.create (desired : Int) : Person :=
  { floor_wait_time := 0, elevator_wait_time := 0, desired_floor := desired }

/-- The rejection loop of `Person.__init__`: `desired_floor` starts equal
to the origin `floor` and is re-drawn (`sample(probs)` on freshly drawn
weights) while it still equals `floor`.  `draws` is the oracle stream of
successive `sample` results; the loop's value is the first draw different
from `floor`, and `none` models a still-running loop whose draws are
exhausted. -/
def personDesiredFloor (floor : Int) : List Int → Option Int
  | [] => none
  | d :: rest => if d = floor then personDesiredFloor floor rest else some d

/-- C9: whatever the drawn values, when the desired-floor rejection loop of
`Person.__init__` terminates with some floor, that floor differs from the
person's origin floor. -/
theorem c9_desired_floor_ne_origin (floor : Int) (draws : List Int) (d : Int)
    (h : personDesiredFloor floor draws = some d) : d ≠ floor := by
  induction draws with
  | nil => exact absurd h (by simp [personDesiredFloor])
  | cons a rest ih =>
    unfold personDesiredFloor at h
    by_cases ha : a = floor
    · rw [if_pos ha] at h
      exact ih h
    · rw [if_neg ha] at h
      injection h with hd
      exact hd ▸ ha

/-- Witness for C9: origin floor 3, draw stream [3, 0] (first draw
rejected, second accepted), result 0 ≠ 3. -/
theorem c9_desired_floor_ne_origin_witness :
    personDesiredFloor 3 [3, 0] = some 0 ∧ (0 : Int) ≠ 3 :=
  ⟨by decide, c9_desired_floor_ne_origin 3 [3, 0] 0 (by decide)⟩

/-- `sample(probs)` (src/simulation.py): the linear cumulative-weight scan
`while rand > probs[i]: rand -= probs[i]; i += 1; return i`, with `rand`
the running threshold.  Weights are modelled as rationals; `none` models
the IndexError Python would raise when the scan runs past the end of the
list. -/
def sample (probs : List ℚ) (rand : ℚ) : Option Nat :=
  match probs with
  | [] => none
  | p :: rest => if rand > p then (sample rest (rand - p)).map (fun i => i + 1) else some 0

theorem sample_lt_length : ∀ probs : List ℚ, probs ≠ [] → ∀ rand : ℚ, rand < probs.sum →
    ∃ i, sample probs rand = some i ∧ i < probs.length := by
  intro probs
  induction probs with
  | nil => intro h; exact absurd rfl h
  | cons p rest ih =>
    intro _ rand hlt
    rw [List.sum_cons] at hlt
    by_cases hgt : rand > p
    · have h1 : rand - p < rest.sum := by linarith
      have h2 : 0 < rest.sum := by linarith
      have hne2 : rest ≠ [] := by
        intro hh
        rw [hh] at h2
        simp at h2
      obtain ⟨i, hi, hil⟩ := ih hne2 (rand - p) h1
      refine ⟨i + 1, ?_, ?_⟩
      · show sample (p :: rest) rand = some (i + 1)
        unfold sample
        rw [if_pos hgt, hi]
        rfl
      · simpa using Nat.succ_lt_succ hil
    · refine ⟨0, ?_, ?_⟩
      · show sample (p :: rest) rand = some 0
        unfold sample
        rw [if_neg hgt]
      · simp

/-- C10: for a non-empty weight list with strictly positive total and a
drawn threshold strictly below the total, the cumulative scan of `sample`
returns an index inside the list: it never reads past the end. -/
theorem c10_sample_in_bounds (probs : List ℚ) (rand : ℚ)
    (hne : probs ≠ []) (_hpos : 0 < probs.sum) (hlt : rand < probs.sum) :
    ∃ i, sample probs rand = some i ∧ i < probs.length :=
  sample_lt_length probs hne rand hlt

/-- Witness for C10: weights [1, 2], threshold 2 < 3 = total; the scan
stops at index 1 < 2. -/
theorem c10_sample_in_bounds_witness :
    (([(1 : ℚ), 2] : List ℚ) ≠ [] ∧ 0 < ([(1 : ℚ), 2] : List ℚ).sum ∧
      (2 : ℚ) < ([(1 : ℚ), 2] : List ℚ).sum) ∧
    ∃ i, sample [(1 : ℚ), 2] 2 = some i ∧ i < ([(1 : ℚ), 2] : List ℚ).length :=
  ⟨⟨by decide, by norm_num, by norm_num⟩,
    c10_sample_in_bounds [(1 : ℚ), 2] 2 (by decide) (by norm_num) (by norm_num)⟩

/-- State of `Stats` (src/simulation.py): wait-time sample lists and the
elevator floor trace. -/
structure Stats where
  floor_wait_times : List Nat
  elevator_wait_times : List Nat
  floors : List Int
  deriving DecidableEq

/-- `Stats.update_wait(person)`: append the person's two final counters. -/
def Stats.update_wait (st : Stats) (p : Person) : Stats :=
  { st with
    floor_wait_times := st.floor_wait_times ++ [p.floor_wait_time]
    elevator_wait_times := st.elevator_wait_times ++ [p.elevator_wait_time] }

/-- `Stats.update_floor(current_floor)`: append to the floor trace. -/
def Stats.update_floor (st : Stats) (f : Int) : Stats :=
  { st with floors := st.floors ++ [f] }

/-- The numeric part of `Stats.display_stats`: the three printed means
`wt / n`, `et / n` and `(wt + et) / n` with `n = len(floor_wait_times)`.
The source divides unconditionally; `none` models the ZeroDivisionError
Python raises when `n = 0`. -/
def Stats.display_means (st : Stats) : Option (ℚ × ℚ × ℚ) :=
  let wt : ℚ := (st.floor_wait_times.sum : ℚ)
  let et : ℚ := (st.elevator_wait_times.sum : ℚ)
  let n : ℚ := (st.floor_wait_times.length : ℚ)
  if n = 0 then none else some (wt / n, et / n, (wt + et) / n)

/-- State of `Simulation` (src/simulation.py).  The per-floor pools are
maps from floor to the ordered list of persons (`waiting_people[f]` and
`elevator_people[f]`). -/
structure Simulation where
  nfloors : Nat
  expo_lambda : List ℚ
  intervals : List Nat
  waiting_people : Int → List Person
  elevator_people : Int → List Person
  max_new_people : Nat
  elevator : Elevator
  stats : Stats

/-- `Simulation.__init__(nfloors, max_new_people)`: rates
`1 / (f**2 + 1)`, initial countdowns `int(random.expovariate(...))`
supplied by the oracle `intervalDraws`, empty pools, a fresh elevator and
empty stats.  The source performs no validation of `nfloors` or
`max_new_people`. -/
def Simulation.init (nfloors max_new_people : Nat) (intervalDraws : Nat → Nat) : Simulation :=
  { nfloors := nfloors
    expo_lambda := (List.range nfloors).map (fun f => 1 / ((f : ℚ) ^ 2 + 1))
    intervals := (List.range nfloors).map intervalDraws
    waiting_people := fun _ => []
    elevator_people := fun _ => []
    max_new_people := max_new_people
    elevator := Elevator.init nfloors
    stats := { floor_wait_times := [], elevator_wait_times := [], floors := [] } }

/-- One floor of the loop in `Simulation.generate_new_requests`: if the
floor's countdown is 0, create the new people (the oracle `spawnDesired`
gives the desired floors of the `int(random()*max_new_people)+1` freshly
drawn persons), append the floor to the request list and redraw the
countdown as `newIntervalDraw floor + 1`; otherwise decrement the
countdown. -/
def Simulation.genStep (spawnDesired : Nat → List Int) (newIntervalDraw : Nat → Nat)
    (acc : Simulation × List Int) (floor : Nat) : Simulation × List Int :=
  let st := acc.1
  let reqs := acc.2
  if st.intervals.getD floor 0 = 0 then
    let newPeople := (spawnDesired floor).map Person.create
    ({ st with
        waiting_people := fun g =>
          if g = (floor : Int) then st.waiting_people g ++ newPeople else st.waiting_people g
        intervals := st.intervals.set floor (newIntervalDraw floor + 1) },
      reqs ++ [(floor : Int)])
  else
    ({ st with intervals := st.intervals.set floor (st.intervals.getD floor 0 - 1) }, reqs)

/-- `Simulation.generate_new_requests`: run the per-floor countdown loop
over floors 0, …, nfloors-1 and register the collected request floors with
the elevator. -/
def Simulation.generate_new_requests (s : Simulation) (spawnDesired : Nat → List Int)
    (newIntervalDraw : Nat → Nat) : Simulation :=
  let res := (List.range s.nfloors).foldl (Simulation.genStep spawnDesired newIntervalDraw) (s, [])
  { res.1 with elevator := res.1.elevator.new_requests res.2 }

/-- `Simulation.update(action)`: record the (post-move) elevator floor; on
an open-doors action (move 0) record departures at the current floor,
clear its riding pool, board every waiting person into the riding pool of
their desired floor and register those floors; finally increment one wait
counter for every person still in a pool of floors 0, …, nfloors-1. -/
def Simulation.update (s : Simulation) (move : Int) : Simulation :=
  let f := s.elevator.current_floor
  let s1 := { s with stats := s.stats.update_floor f }
  let s2 :=
    if move = 0 then
      let leaving := s1.elevator_people f
      let boarding := s1.waiting_people f
      let floor_requests := boarding.map Person.desired_floor
      { s1 with
          stats := leaving.foldl Stats.update_wait s1.stats
          elevator_people := fun d =>
            (if d = f then [] else s1.elevator_people d) ++
              boarding.filter (fun p => p.desired_floor = d)
          elevator := s1.elevator.new_requests floor_requests
          waiting_people := fun g => if g = f then [] else s1.waiting_people g }
    else s1
  { s2 with
      elevator_people := fun d =>
        if 0 ≤ d ∧ d < (s2.nfloors : Int) then (s2.elevator_people d).map (Person.wait true)
        else s2.elevator_people d
      waiting_people := fun g =>
        if 0 ≤ g ∧ g < (s2.nfloors : Int) then (s2.waiting_people g).map (Person.wait false)
        else s2.waiting_people g }

/-- One iteration of `Simulation.run`'s loop: generate arrivals, let the
elevator act, then update pools and statistics. -/
def Simulation.tick (s : Simulation) (spawnDesired : Nat → List Int)
    (newIntervalDraw : Nat → Nat) : Simulation :=
  let s1 := s.generate_new_requests spawnDesired newIntervalDraw
  let res := s1.elevator.action
  { s1 with elevator := res.1 }.update res.2

/-- `Simulation.run(time)`: one tick per entry of the oracle list (each
entry carries that tick's random draws). -/
def Simulation.run (s : Simulation) (oracles : List ((Nat → List Int) × (Nat → Nat))) : Simulation :=
  oracles.foldl (fun st o => st.tick o.1 o.2) s

/-- C3: the source constructor accepts the invalid configuration
`nfloors = 1`, `max_new_people = 0` without raising any
InvalidConfiguration error: it builds an ordinary state storing the
values unchanged (no clamping).  This contradicts the claimed fail-fast
validation. -/
theorem c3_init_no_validation :
    (Simulation.init 1 0 (fun _ => 0)).nfloors = 1 ∧
    (Simulation.init 1 0 (fun _ => 0)).max_new_people = 0 ∧
    (Simulation.init 1 0 (fun _ => 0)).elevator = Elevator.init 1 ∧
    (Simulation.init 1 0 (fun _ => 0)).stats = Stats.mk [] [] [] :=
  ⟨rfl, rfl, rfl, rfl⟩

/-- C4: with nfloors = 10, maxNewPeople = 1 and zero ticks, no wait-time
sample is recorded, and the mean computation of `display_stats` reaches
its zero denominator: the result is `none`, i.e. Python's uncaught
ZeroDivisionError, not a handled no-data report. -/
theorem c4_display_means_zero_samples :
    ((Simulation.init 10 1 (fun _ => 0)).run []).stats.display_means = none := rfl

/-- Oracle draws of the C5 scenario: at tick 0 the countdown of floor 3 is
0 and a single person (max_new_people = 1 forces the batch size
`int(random()*1)+1 = 1`) is created there desiring floor 0; every other
countdown starts at 9 and floor 3's is redrawn as 9 + 1, so no further
arrival occurs within 7 ticks. -/
def scenarioSpawn : Nat → List Int := fun f => if f = 3 then [(0 : Int)] else []

/-- Seven ticks of the C5 scenario, each with the same per-tick draws. -/
def scenarioOracles : List ((Nat → List Int) × (Nat → Nat)) :=
  List.replicate 7 (scenarioSpawn, fun _ => 9)

/-- Final state of the C5 scenario: nfloors = 5, max_new_people = 1,
elevator starting at floor 1, run for 7 ticks. -/
def scenarioFinal : Simulation :=
  (Simulation.init 5 1 (fun f => if f = 3 then 0 else 9)).run scenarioOracles

/-- Counterexample to C5 as stated: in the scenario the departed person's
recorded elevatorWaitTime is not 3 (it is 4: the person rides during the
ticks ending at floors 3, 2, 1 and 0, and the doors open only on the tick
after the car reaches floor 0). -/
theorem c5_scenario_counterexample :
    scenarioFinal.stats.elevator_wait_times ≠ [3] := by decide

/-- C5 amended: in the deterministic scenario (nfloors = 5, one person at
floor 3 desiring floor 0, elevator from floor 1, no further arrivals) the
recorded floor trace is 2, 3, 3, 2, 1, 0, 0 (the car moves 1→2→3, opens,
moves 3→2→1→0, opens) and the departed person's counters are
floorWaitTime = 2 and elevatorWaitTime = 4. -/
theorem c5_scenario_amended :
    scenarioFinal.stats.floors = [2, 3, 3, 2, 1, 0, 0] ∧
    scenarioFinal.stats.floor_wait_times = [2] ∧
    scenarioFinal.stats.elevator_wait_times = [4] := by
  refine ⟨by decide, by decide, by decide⟩

end ElevatorSim
